import Mathlib

/-!
# Verification of the Political-spectrum-app core logic

Shallow embedding of the pure core of `src/index.tsx` (and its sibling
variants `src/unnamed/part_000`, `src/unnamed/part_001`): JSON extraction
(`safeParseJson`), headline de-duplication and `latest` computation
(`fetchHeadlines`), article side assignment and normalization
(`getAnalysis` / `normalizeArticle`), narration queue construction
(`addToQueue` in `handleGlobalSpeech`), speech stop semantics
(`stopSpeech`), and voice selection (`getBestVoice`).

Conventions: JS `undefined`/absent fields become `Option`; JS string
falsiness (`!s` true for `undefined`, `null`, `""`) is modelled
explicitly; ISO date strings sorted via `new Date(s).getTime()` are
modelled by their integer timestamps; thrown `Error` values become
`Except String` with the source's message strings.
-/

namespace PoliticalSpectrum

/-! ## Headline model (`fetchHeadlines`, src/index.tsx lines 148-233) -/

/-- A headline as produced by the headline-discovery request
(`Headline` interface in `src/index.tsx`).  The `publishedAt` ISO date
string is modelled by its parsed timestamp (`new Date(s).getTime()`),
an integer number of milliseconds. -/
structure Headline where
  headline : String
  source : String
  emoji : String
  publishedAt : Int
deriving DecidableEq, Repr

/-- The parsed headline-discovery response (`Headlines` interface). -/
structure Headlines where
  leftHeadlines : List Headline
  rightHeadlines : List Headline
deriving DecidableEq, Repr

/-- Descending recency order used by the sort comparator
`(a, b) => new Date(b.publishedAt).getTime() - new Date(a.publishedAt).getTime()`. -/
def hRel (a b : Headline) : Prop := b.publishedAt ≤ a.publishedAt

instance : DecidableRel hRel := fun a b =>
  inferInstanceAs (Decidable (b.publishedAt ≤ a.publishedAt))

/-- Model of `sortHeadlines` from `fetchHeadlines`: stable sort most-recent first. -/
def sortHeadlines (hs : List Headline) : List Headline :=
  hs.insertionSort hRel

/-- The three lists set into component state by a successful
`fetchHeadlines` run. -/
structure FetchResult where
  latest : List Headline
  leftHeadlines : List Headline
  rightHeadlines : List Headline
deriving DecidableEq, Repr

/-- The pure tail of `fetchHeadlines` (src/index.tsx lines 196-225):
pool both sides, sort by recency, take the top 2 as `latest`, remove
any headline whose text is in `latest` from each side, and sort each
remaining side list. -/
def fetchHeadlinesPure (input : Headlines) : FetchResult :=
  let allHeadlines := input.leftHeadlines ++ input.rightHeadlines
  let sortedAll := sortHeadlines allHeadlines
  let latest := sortedAll.take 2
  let latestTexts := latest.map (·.headline)
  let remainingLeft := input.leftHeadlines.filter
    (fun h => ¬ latestTexts.contains h.headline)
  let remainingRight := input.rightHeadlines.filter
    (fun h => ¬ latestTexts.contains h.headline)
  { latest := latest
    leftHeadlines := sortHeadlines remainingLeft
    rightHeadlines := sortHeadlines remainingRight }

/-- Scenario input for C3: 5 left + 5 right headlines, with `L1` (t=1000)
and `R1` (t=999) sharing the near-identical global-maximum timestamps. -/
def scenarioInput : Headlines :=
  { leftHeadlines :=
      [⟨"L1", "CNN", "e", 1000⟩, ⟨"L2", "CNN", "e", 900⟩,
       ⟨"L3", "MSNBC", "e", 800⟩, ⟨"L4", "CNN", "e", 700⟩,
       ⟨"L5", "MSNBC", "e", 600⟩]
    rightHeadlines :=
      [⟨"R1", "Fox News", "e", 999⟩, ⟨"R2", "Fox News", "e", 850⟩,
       ⟨"R3", "Daily Wire", "e", 750⟩, ⟨"R4", "Fox News", "e", 650⟩,
       ⟨"R5", "Daily Wire", "e", 550⟩] }

/-! ## JSON values and `JSON.parse` model

`safeParseJson` (src/index.tsx lines 41-54) extracts the substring from
the first `{` to the last `}` and feeds it to `JSON.parse`.  The parser
below models `JSON.parse`: a recursive-descent parser over the JSON
grammar (objects, arrays, strings with escapes, numbers, literals),
using a fuel argument for termination.  Divergences from the engine are
confined to representation: a number literal is kept as its mantissa,
fraction length and decimal exponent instead of a double, and duplicate
object keys are kept in order instead of last-wins. -/

/-- A parsed JSON value.  `num m f e` stands for the numeric literal
with integer value `m / 10^f * 10^e`. -/
inductive Json where
  | null
  | bool (b : Bool)
  | num (mantissa : Int) (fracLen : Nat) (exp10 : Int)
  | str (s : String)
  | arr (elems : List Json)
  | obj (fields : List (String × Json))
deriving Repr

/-- JSON insignificant whitespace. -/
def isJsonWs (c : Char) : Bool := c = ' ' || c = '\t' || c = '\n' || c = '\r'

/-- Skip insignificant whitespace. -/
def skipWs (l : List Char) : List Char := l.dropWhile isJsonWs

/-- Hex digit value. -/
def hexVal (c : Char) : Option Nat :=
  if '0' ≤ c ∧ c ≤ '9' then some (c.toNat - '0'.toNat)
  else if 'a' ≤ c ∧ c ≤ 'f' then some (c.toNat - 'a'.toNat + 10)
  else if 'A' ≤ c ∧ c ≤ 'F' then some (c.toNat - 'A'.toNat + 10)
  else none

/-- Decimal digit test. -/
def isDig (c : Char) : Bool := '0' ≤ c && c ≤ '9'

/-- Decimal digits to a natural number. -/
def digitsToNat (ds : List Char) : Nat :=
  ds.foldl (fun acc c => acc * 10 + (c.toNat - '0'.toNat)) 0

/-- Parse the body of a JSON string literal (opening quote already
consumed); returns the decoded characters and the rest of the input. -/
def parseStrChars : List Char → Option (List Char × List Char)
  | [] => none
  | '"' :: rest => some ([], rest)
  | '\\' :: '"' :: rest => (fun p => ('"' :: p.1, p.2)) <$> parseStrChars rest
  | '\\' :: '\\' :: rest => (fun p => ('\\' :: p.1, p.2)) <$> parseStrChars rest
  | '\\' :: '/' :: rest => (fun p => ('/' :: p.1, p.2)) <$> parseStrChars rest
  | '\\' :: 'b' :: rest =>
      (fun p => (Char.ofNat 8 :: p.1, p.2)) <$> parseStrChars rest
  | '\\' :: 'f' :: rest =>
      (fun p => (Char.ofNat 12 :: p.1, p.2)) <$> parseStrChars rest
  | '\\' :: 'n' :: rest => (fun p => ('\n' :: p.1, p.2)) <$> parseStrChars rest
  | '\\' :: 'r' :: rest =>
      (fun p => (Char.ofNat 13 :: p.1, p.2)) <$> parseStrChars rest
  | '\\' :: 't' :: rest => (fun p => ('\t' :: p.1, p.2)) <$> parseStrChars rest
  | '\\' :: 'u' :: h1 :: h2 :: h3 :: h4 :: rest =>
      match hexVal h1, hexVal h2, hexVal h3, hexVal h4 with
      | some a, some b, some c, some d =>
          (fun p => (Char.ofNat (((a * 16 + b) * 16 + c) * 16 + d) :: p.1, p.2))
            <$> parseStrChars rest
      | _, _, _, _ => none
  | '\\' :: _ => none
  | c :: rest =>
      if c.toNat < 32 then none
      else (fun p => (c :: p.1, p.2)) <$> parseStrChars rest

/-- Parse a JSON number literal at the head of the input. -/
def parseNumber (l : List Char) : Option (Json × List Char) :=
  let (neg, l1) := match l with
    | '-' :: r => (true, r)
    | _ => (false, l)
  let intDigits := l1.takeWhile isDig
  if intDigits.isEmpty then none
  else
    let l2 := l1.drop intDigits.length
    let (fracDigits, l3) := match l2 with
      | '.' :: r =>
          let fd := r.takeWhile isDig
          (fd, r.drop fd.length)
      | _ => ([], l2)
    if l2 ≠ [] ∧ l2.head? = some '.' ∧ fracDigits.isEmpty then none
    else
      let (expOk, exp10, l4) := match l3 with
        | 'e' :: '+' :: r =>
            let ed := r.takeWhile isDig
            (!ed.isEmpty, (digitsToNat ed : Int), r.drop ed.length)
        | 'e' :: '-' :: r =>
            let ed := r.takeWhile isDig
            (!ed.isEmpty, -(digitsToNat ed : Int), r.drop ed.length)
        | 'e' :: r =>
            let ed := r.takeWhile isDig
            (!ed.isEmpty, (digitsToNat ed : Int), r.drop ed.length)
        | 'E' :: '+' :: r =>
            let ed := r.takeWhile isDig
            (!ed.isEmpty, (digitsToNat ed : Int), r.drop ed.length)
        | 'E' :: '-' :: r =>
            let ed := r.takeWhile isDig
            (!ed.isEmpty, -(digitsToNat ed : Int), r.drop ed.length)
        | 'E' :: r =>
            let ed := r.takeWhile isDig
            (!ed.isEmpty, (digitsToNat ed : Int), r.drop ed.length)
        | _ => (true, 0, l3)
      if expOk then
        let mantNat := digitsToNat (intDigits ++ fracDigits)
        let mant : Int := if neg then -(mantNat : Int) else (mantNat : Int)
        some (Json.num mant fracDigits.length exp10, l4)
      else none

mutual

/-- Parse one JSON value at the head of the input (no leading
whitespace); `fuel` bounds the nesting depth. -/
def parseValue : Nat → List Char → Option (Json × List Char)
  | 0, _ => none
  | _ + 1, 'n' :: 'u' :: 'l' :: 'l' :: r => some (.null, r)
  | _ + 1, 't' :: 'r' :: 'u' :: 'e' :: r => some (.bool true, r)
  | _ + 1, 'f' :: 'a' :: 'l' :: 's' :: 'e' :: r => some (.bool false, r)
  | _ + 1, '"' :: r =>
      (fun p => (Json.str ⟨p.1⟩, p.2)) <$> parseStrChars r
  | fuel + 1, '[' :: r =>
      match skipWs r with
      | ']' :: r2 => some (.arr [], r2)
      | r1 => (fun p => (Json.arr p.1, p.2)) <$> parseArrayItems fuel r1
  | fuel + 1, '{' :: r =>
      match skipWs r with
      | '}' :: r2 => some (.obj [], r2)
      | r1 => (fun p => (Json.obj p.1, p.2)) <$> parseObjectItems fuel r1
  | _ + 1, l => parseNumber l

/-- Parse the comma-separated elements of a non-empty JSON array,
including the closing `]`. -/
def parseArrayItems : Nat → List Char → Option (List Json × List Char)
  | 0, _ => none
  | fuel + 1, l => do
      let (v, r) ← parseValue fuel l
      match skipWs r with
      | ',' :: r2 => do
          let (vs, r3) ← parseArrayItems fuel (skipWs r2)
          pure (v :: vs, r3)
      | ']' :: r2 => pure ([v], r2)
      | _ => none

/-- Parse the comma-separated members of a non-empty JSON object,
including the closing `}`. -/
def parseObjectItems : Nat → List Char → Option (List (String × Json) × List Char)
  | 0, _ => none
  | fuel + 1, l =>
      match l with
      | '"' :: r => do
          let (k, r1) ← parseStrChars r
          match skipWs r1 with
          | ':' :: r2 => do
              let (v, r3) ← parseValue fuel (skipWs r2)
              match skipWs r3 with
              | ',' :: r4 => do
                  let (fs, r5) ← parseObjectItems fuel (skipWs r4)
                  pure ((⟨k⟩, v) :: fs, r5)
              | '}' :: r4 => pure ([(⟨k⟩, v)], r4)
              | _ => none
          | _ => none
      | _ => none

end

/-- Model of `JSON.parse`: parse exactly one JSON value surrounded by
optional whitespace; `none` models a thrown `SyntaxError`. -/
def jsonParse (s : String) : Option Json :=
  match parseValue (s.data.length + 1) (skipWs s.data) with
  | some (v, rest) => if skipWs rest = [] then some v else none
  | none => none

/-! ## `safeParseJson` (src/index.tsx lines 41-54) -/

/-- Model of `String.prototype.indexOf` for a single character, over the char
list. -/
def indexOfChar (c : Char) (l : List Char) : Option Nat :=
  l.findIdx? (· == c)

/-- Model of `String.prototype.lastIndexOf` for a single character. -/
def lastIndexOfChar (c : Char) (l : List Char) : Option Nat :=
  (l.reverse.findIdx? (· == c)).map (fun i => l.length - 1 - i)

/-- The error message every `safeParseJson` failure is rethrown with
(the inner "Could not find a valid JSON object" throw is caught by the
surrounding `try` and replaced by this message). -/
def invalidFormatMsg : String :=
  "The AI returned an invalid format. Please try again."

/-- The substring from the first `{` to the last `}` (inclusive), when
both exist and are ordered — `jsonString.substring(startIndex, endIndex + 1)`. -/
def extractedJsonText (s : String) : Option String :=
  match indexOfChar '{' s.data, lastIndexOfChar '}' s.data with
  | some i, some j => if j < i then none else some ⟨(s.data.drop i).take (j + 1 - i)⟩
  | _, _ => none

/-- Model of `safeParseJson` (src/index.tsx lines 41-54): extract the first-`{`
to last-`}` substring and `JSON.parse` it; any failure becomes the
single malformed-response error. -/
def safeParseJson (s : String) : Except String Json :=
  match extractedJsonText s with
  | none => .error invalidFormatMsg
  | some t =>
      match jsonParse t with
      | some v => .ok v
      | none => .error invalidFormatMsg

/-! ## Article normalization and side assignment
(`getAnalysis`, src/index.tsx lines 263-332) -/

/-- JS string falsiness: `!s` is true for `undefined`/`null` and `""`. -/
def strFalsy : Option String → Bool
  | none => true
  | some s => s = ""

/-- JS `x || y` on possibly-absent strings. -/
def jsOrElse (x y : Option String) : Option String :=
  if strFalsy x then y else x

/-- An article object as found in the parsed search response; every
field may be absent. -/
structure RawArticle where
  title : Option String
  url : Option String
  source : Option String
  publishedAt : Option String
  publication_date : Option String
deriving DecidableEq, Repr

/-- A normalized article (`{...article, publishedAt: ...}`): the spread
keeps all fields, `publishedAt` is overwritten and always present. -/
structure NormArticle where
  title : Option String
  url : Option String
  source : Option String
  publishedAt : String
  publication_date : Option String
deriving DecidableEq, Repr

/-- Model of `normalizeArticle` (src/index.tsx lines 267-278) on a non-null
article: take `publishedAt`, or its `publication_date` alias, falling
back to the current request time `now` (`new Date().toISOString()`)
when both are absent or empty; the second component is true exactly
when the `console.warn("Article missing publication date", ...)`
fallback logging fired. -/
def normalizeArticle (now : String) (a : RawArticle) : NormArticle × Bool :=
  let pub := jsOrElse a.publishedAt a.publication_date
  ({ title := a.title
     url := a.url
     source := a.source
     publishedAt := if strFalsy pub then now else pub.getD now
     publication_date := a.publication_date },
   strFalsy pub)

/-- The side assignment inside the undifferentiated-articles branch
(src/index.tsx lines 315-321): the first of the two articles whose
source string equals the classification's `rightWingArticleSource`
becomes the right-leaning article, otherwise the second does; returns
`(right, left)`. -/
def assignSides (a b : RawArticle) (rightSource : String) :
    RawArticle × RawArticle :=
  if a.source = some rightSource then (a, b) else (b, a)

/-- The whole undifferentiated-articles branch (src/index.tsx lines
283-321): `articles.slice(0, 2)` then classify and assign, then
normalize both assigned articles; `none` models the branch not taken
because fewer than two articles arrived. -/
def classifyAssign (now : String) (articles : List RawArticle)
    (rightSource : String) : Option (NormArticle × NormArticle) :=
  match articles with
  | a :: b :: _ =>
      let rl := assignSides a b rightSource
      some ((normalizeArticle now rl.1).1, (normalizeArticle now rl.2).1)
  | _ => none

/-- The user-presentable message thrown at src/index.tsx line 331. -/
def articlesNotFoundMsg : String :=
  "The AI could not find suitable left and right-leaning articles for this topic. Please try a different headline."

/-- The guard at src/index.tsx lines 324-332: fail with the
articles-not-found error unless both side articles were determined and
both carry truthy titles; on success hand both articles on to the
analysis step. -/
def checkArticles (r l : Option NormArticle) :
    Except String (NormArticle × NormArticle) :=
  match r, l with
  | some ra, some la =>
      if strFalsy ra.title || strFalsy la.title then
        .error articlesNotFoundMsg
      else .ok (ra, la)
  | _, _ => .error articlesNotFoundMsg

/-! ## Narration queue (`handleGlobalSpeech`/`addToQueue`,
src/index.tsx lines 460-496) -/

/-- One queued narration unit: `{ cardId, text }`. -/
structure NarrationUnit where
  cardId : String
  text : String
deriving DecidableEq, Repr

/-- Whitespace removed by `String.prototype.trim` (ASCII range). -/
def isTrimWs (c : Char) : Bool := c = ' ' || c = '\t' || c = '\n' || c = '\r'

/-- Model of `text.trim()` on the character list. -/
def trimChars (l : List Char) : List Char :=
  ((l.dropWhile isTrimWs).reverse.dropWhile isTrimWs).reverse

/-- Model of `text.trim()`. -/
def trimStr (s : String) : String := ⟨trimChars s.data⟩

/-- A sentence delimiter of the splitting regex `/[^.!?]+[.!?]?/g`. -/
def isDelim (c : Char) : Bool := c = '.' || c = '!' || c = '?'

/-- Global matching of `/[^.!?]+[.!?]?/g`: each match is a maximal run
of non-delimiters followed by at most one delimiter; delimiter
characters that cannot start a match are skipped. -/
def splitAux : List Char → List Char → List String
  | [], acc => if acc.isEmpty then [] else [⟨acc.reverse⟩]
  | c :: rest, acc =>
      if isDelim c then
        if acc.isEmpty then splitAux rest []
        else String.mk (acc.reverse ++ [c]) :: splitAux rest []
      else splitAux rest (c :: acc)

/-- Model of the match call of the splitting regex; the empty list models a `null`
match result. -/
def matchSentences (s : String) : List String := splitAux s.data []

/-- Model of `addToQueue` (src/index.tsx lines 462-474) as the list of units it
pushes: skip absent/blank text; when splitting, emit one unit per
trimmed non-empty sentence (falling back to the whole text when the
regex matches nothing); otherwise one unit with the text as is. -/
def addToQueue (cardId : String) (text : Option String) (shouldSplit : Bool) :
    List NarrationUnit :=
  match text with
  | none => []
  | some t =>
      if (trimStr t).data.isEmpty then []
      else if shouldSplit then
        let m := matchSentences t
        let sentences := if m.isEmpty then [t] else m
        sentences.foldr (fun sen acc =>
          if (trimStr sen).data.isEmpty then acc
          else ⟨cardId, trimStr sen⟩ :: acc) []
      else [⟨cardId, t⟩]

/-- One analyzed article inside the final `AnalysisResult`
(`ArticleAnalysis` interface): `spinAnalysis`/`portrayalOfRight` are
optional. -/
structure ArticleAnalysis where
  title : String
  url : String
  source : String
  publishedAt : String
  summary : String
  spinAnalysis : Option String
  portrayalOfRight : Option String
deriving DecidableEq, Repr

/-- The canonical result rendered and narrated (`AnalysisResult`
interface); the spectrum score is not narrated, an `Int` stands in for
the JS number. -/
structure AnalysisResult where
  topic : String
  rightWingArticle : ArticleAnalysis
  leftWingArticle : ArticleAnalysis
  leftistTalkingPoints : List String
  socialistTalkingPoints : List String
  spectrumScore : Int
  spectrumJustification : String
deriving DecidableEq, Repr

/-- The full queue built by the `stopped` branch of
`handleGlobalSpeech` (src/index.tsx lines 476-496), in source order. -/
def buildQueue (analysis : AnalysisResult) : List NarrationUnit :=
  addToQueue "right-wing" (some "Right-Wing Perspective.") false
  ++ addToQueue "right-wing" (some ("Title: " ++ analysis.rightWingArticle.title)) false
  ++ addToQueue "right-wing" (some ("Source: " ++ analysis.rightWingArticle.source)) false
  ++ addToQueue "right-wing" (some "Summary:") false
  ++ addToQueue "right-wing" (some analysis.rightWingArticle.summary) true
  ++ addToQueue "right-wing" (some "Narrative and Spin Analysis:") false
  ++ addToQueue "right-wing" analysis.rightWingArticle.spinAnalysis true
  ++ addToQueue "left-wing" (some "Left-Wing Perspective.") false
  ++ addToQueue "left-wing" (some ("Title: " ++ analysis.leftWingArticle.title)) false
  ++ addToQueue "left-wing" (some ("Source: " ++ analysis.leftWingArticle.source)) false
  ++ addToQueue "left-wing" (some "Summary:") false
  ++ addToQueue "left-wing" (some analysis.leftWingArticle.summary) true
  ++ addToQueue "left-wing" (some "Portrayal of Right-Wing View:") false
  ++ addToQueue "left-wing" analysis.leftWingArticle.portrayalOfRight true
  ++ addToQueue "leftist-points" (some "Leftist Talking Points.") false
  ++ analysis.leftistTalkingPoints.foldr
      (fun p acc => addToQueue "leftist-points" (some p) true ++ acc) []
  ++ addToQueue "socialist-points" (some "Socialist Talking Points.") false
  ++ analysis.socialistTalkingPoints.foldr
      (fun p acc => addToQueue "socialist-points" (some p) true ++ acc) []

/-- A small concrete analysis result used as evaluation witness. -/
def sampleAnalysis : AnalysisResult :=
  { topic := "t"
    rightWingArticle := ⟨"RT", "u1", "RS", "d", "Right summary.", some "Spin.", none⟩
    leftWingArticle := ⟨"LT", "u2", "LS", "d", "Left summary.", none, some "Portrayal."⟩
    leftistTalkingPoints := ["Point one."]
    socialistTalkingPoints := ["Point two."]
    spectrumScore := 0
    spectrumJustification := "j" }

/-! ## Speech session stop (`stopSpeech`, src/index.tsx lines 423-430) -/

/-- The `'stopped' | 'playing' | 'paused'` union. -/
inductive GlobalSpeechState where
  | stopped
  | playing
  | paused
deriving DecidableEq, Repr

/-- The speech-session state touched by `stopSpeech`: the utterance
queue ref (`speechQueueRef.current`), the playback state and the
currently highlighted card. -/
structure SpeechState where
  utterances : List NarrationUnit
  currentIndex : Nat
  globalSpeechState : GlobalSpeechState
  currentlySpeakingCard : Option String
deriving DecidableEq, Repr

/-- Model of `stopSpeech` (src/index.tsx lines 423-430): reset the queue ref to
`{utterances: [], currentIndex: 0}`, cancel any device activity (an
external effect), set the state to `stopped` and clear the speaking
card. -/
def stopSpeech (_s : SpeechState) : SpeechState :=
  { utterances := []
    currentIndex := 0
    globalSpeechState := .stopped
    currentlySpeakingCard := none }

/-! ## Voice selection (`getBestVoice`, src/index.tsx lines 104-124, and
the `preferredVoice` lookup at line 498) -/

/-- A `SpeechSynthesisVoice`. -/
structure Voice where
  name : String
  lang : String
  localService : Bool
  voiceURI : String
deriving DecidableEq, Repr

/-- JS `String.prototype.startsWith` over the scalar sequence. -/
def strStartsWith (s p : String) : Bool := p.data.isPrefixOf s.data

/-- The named premium voices preferred for `en-US`, in priority order. -/
def premiumNames : List String :=
  ["Google US English", "Microsoft David - English (United States)",
   "Samantha", "Alex"]

/-- The `for (const name of premiumNames)` loop in `getBestVoice`. -/
def findPremium : List String → List Voice → Option Voice
  | [], _ => none
  | n :: ns, vcs =>
      match vcs.find? (fun v => v.name == n && v.lang == "en-US") with
      | some v => some v
      | none => findPremium ns vcs

/-- Model of `getBestVoice` (src/index.tsx lines 104-124): premium named voice
for en-US, else a local-service en-US voice, else any en-US voice, else
any voice whose locale starts with "en", else none. -/
def getBestVoice (vcs : List Voice) : Option Voice :=
  if vcs.isEmpty then none
  else
    match findPremium premiumNames vcs with
    | some v => some v
    | none =>
        match vcs.find? (fun v => v.lang == "en-US" && v.localService) with
        | some v => some v
        | none =>
            match vcs.find? (fun v => v.lang == "en-US") with
            | some v => some v
            | none => vcs.find? (fun v => strStartsWith v.lang "en")

/-- The user-selected voice lookup in `handleGlobalSpeech`
(src/index.tsx line 498): `voices.find(v => v.voiceURI === selectedVoiceURI)`. -/
def pickSelectedVoice (voices : List Voice) (selectedVoiceURI : String) :
    Option Voice :=
  voices.find? (fun v => v.voiceURI == selectedVoiceURI)

/-- Tier 1 of the fallback chain: a named premium voice for en-US. -/
def isPremiumUS (v : Voice) : Prop := v.name ∈ premiumNames ∧ v.lang = "en-US"

/-- Tier 2: a local-service voice for en-US. -/
def isLocalUS (v : Voice) : Prop := v.lang = "en-US" ∧ v.localService = true

/-- Tier 3: any voice for en-US. -/
def isUS (v : Voice) : Prop := v.lang = "en-US"

/-- Tier 4: any voice whose locale prefix matches the target language. -/
def isEnLocale (v : Voice) : Prop := strStartsWith v.lang "en" = true

/-! ## Theorems -/

theorem indexOfChar_eq_none {c : Char} {l : List Char} (h : c ∉ l) :
    indexOfChar c l = none := by
  rw [indexOfChar, List.findIdx?_eq_none_iff]
  intro x hx
  rw [beq_eq_false_iff_ne]
  rintro rfl
  exact h hx

theorem lastIndexOfChar_eq_none {c : Char} {l : List Char} (h : c ∉ l) :
    lastIndexOfChar c l = none := by
  have hrev : l.reverse.findIdx? (· == c) = none := by
    rw [List.findIdx?_eq_none_iff]
    intro x hx
    rw [beq_eq_false_iff_ne]
    rintro rfl
    exact h (List.mem_reverse.mp hx)
  rw [lastIndexOfChar, hrev]
  rfl

theorem extractedJsonText_eq_none {s : String}
    (h : '{' ∉ s.data ∨ '}' ∉ s.data) :
    extractedJsonText s = none := by
  rcases h with h | h
  · rw [extractedJsonText, indexOfChar_eq_none h]
  · rw [extractedJsonText, lastIndexOfChar_eq_none h]
    cases indexOfChar '{' s.data <;> rfl

/-- C1: `safeParseJson` locates the first `{` and the last `}` and
parses the substring between them as JSON, tolerating surrounding
prose; when no such substring exists, or the substring does not parse,
it fails with the malformed-response error and never returns a value:
(1) the concrete prose-wrapped example yields the object `{"a":1}`;
(2) any input missing a `{` or a `}` fails; (3) any input in which no
extractable substring exists fails; (4) whenever an extraction
substring exists the result is exactly the outcome of JSON-parsing it
(ok on parse success, the malformed-response error on parse failure). -/
theorem safeParseJson_first_last_brace :
    (safeParseJson "here is json: \x7b\"a\":1\x7d thanks" =
      Except.ok (Json.obj [("a", Json.num 1 0 0)])) ∧
    (∀ s : String, '{' ∉ s.data ∨ '}' ∉ s.data →
      safeParseJson s = Except.error invalidFormatMsg) ∧
    (∀ s : String, extractedJsonText s = none →
      safeParseJson s = Except.error invalidFormatMsg) ∧
    (∀ s t : String, extractedJsonText s = some t →
      safeParseJson s =
        match jsonParse t with
        | some v => Except.ok v
        | none => Except.error invalidFormatMsg) := by
  refine ⟨rfl, ?_, ?_, ?_⟩
  · intro s h
    rw [safeParseJson, extractedJsonText_eq_none h]
  · intro s h
    rw [safeParseJson, h]
  · intro s t h
    rw [safeParseJson, h]

/-- Witness for C1: a concrete no-brace input fails, and a concrete
input with an extractable substring parses that substring. -/
theorem safeParseJson_first_last_brace_witness :
    ('{' ∉ "no braces here".data ∨ '}' ∉ "no braces here".data) ∧
    safeParseJson "no braces here" = Except.error invalidFormatMsg ∧
    extractedJsonText "x\x7b\x7d y" = some "\x7b\x7d" ∧
    safeParseJson "x\x7b\x7d y" =
      (match jsonParse "\x7b\x7d" with
        | some v => Except.ok v
        | none => Except.error invalidFormatMsg) := by
  refine ⟨Or.inl (by decide), ?_, by decide, ?_⟩
  · exact safeParseJson_first_last_brace.2.1 "no braces here" (Or.inl (by decide))
  · exact safeParseJson_first_last_brace.2.2.2 "x\x7b\x7d y" "\x7b\x7d" (by decide)

theorem mem_sortHeadlines {h : Headline} {hs : List Headline} :
    h ∈ sortHeadlines hs ↔ h ∈ hs :=
  (List.perm_insertionSort hRel hs).mem_iff

theorem sorted_sortHeadlines (hs : List Headline) :
    (sortHeadlines hs).Sorted hRel := by
  haveI : IsTotal Headline hRel := ⟨fun a b => le_total b.publishedAt a.publishedAt⟩
  haveI : IsTrans Headline hRel := ⟨fun _ _ _ hab hbc => le_trans hbc hab⟩
  exact List.sorted_insertionSort hRel hs

theorem mem_latest_text {input : Headlines} {h : Headline}
    (hm : h ∈ (fetchHeadlinesPure input).latest) :
    h.headline ∈ ((fetchHeadlinesPure input).latest.map (·.headline)) :=
  List.mem_map_of_mem _ hm

theorem mem_side_of_result {input : Headlines} {b : Headline}
    (hb : b ∈ (fetchHeadlinesPure input).leftHeadlines ∨
          b ∈ (fetchHeadlinesPure input).rightHeadlines) :
    (b ∈ input.leftHeadlines ++ input.rightHeadlines) ∧
      b.headline ∉ (fetchHeadlinesPure input).latest.map (·.headline) := by
  rcases hb with hb | hb <;>
  · simp only [fetchHeadlinesPure, mem_sortHeadlines, List.mem_filter,
      List.mem_append, decide_eq_true_eq] at hb ⊢
    refine ⟨by tauto, ?_⟩
    intro hcon
    exact hb.2 (by simpa using hcon)

/-- C2: after `fetchHeadlines`, no headline text appears in both the
`latest` list and either remaining side-list; the de-duplication key is
headline-text equality. -/
theorem latest_sides_disjoint_by_text (input : Headlines)
    (h h' : Headline)
    (hmem : h ∈ (fetchHeadlinesPure input).latest)
    (hside : h' ∈ (fetchHeadlinesPure input).leftHeadlines ∨
             h' ∈ (fetchHeadlinesPure input).rightHeadlines) :
    h'.headline ≠ h.headline := by
  intro heq
  have h1 := mem_latest_text hmem
  have h2 := (mem_side_of_result hside).2
  rw [heq] at h2
  exact h2 h1

/-- Witness for C2 at a concrete two-headline input. -/
theorem latest_sides_disjoint_by_text_witness :
    (⟨"a", "s", "e", 5⟩ : Headline) ∈
        (fetchHeadlinesPure ⟨[⟨"a", "s", "e", 5⟩, ⟨"b", "s", "e", 4⟩,
          ⟨"c", "s", "e", 3⟩], []⟩).latest ∧
      "c" ≠ "a" := by
  refine ⟨by decide, ?_⟩
  exact latest_sides_disjoint_by_text
    ⟨[⟨"a", "s", "e", 5⟩, ⟨"b", "s", "e", 4⟩, ⟨"c", "s", "e", 3⟩], []⟩
    ⟨"a", "s", "e", 5⟩ ⟨"c", "s", "e", 3⟩ (by decide) (by left; decide)

theorem latest_eq_take_two (input : Headlines) :
    (fetchHeadlinesPure input).latest =
      (sortHeadlines (input.leftHeadlines ++ input.rightHeadlines)).take 2 := rfl

/-- C3: `latest` is the 2 most recently published headlines pooled across
both sides, most recent first, and they are excluded from the side-lists:
(1) the concrete 5+5 scenario yields exactly the two global-maximum
headlines as `latest` and drops them from the sides; (2) `latest` is
ordered most recent first; (3) its length is `min 2 (pool size)`;
(4) every headline left in a side-list is no more recent than every
headline in `latest`. -/
theorem latest_is_two_most_recent :
    (fetchHeadlinesPure scenarioInput =
      { latest := [⟨"L1", "CNN", "e", 1000⟩, ⟨"R1", "Fox News", "e", 999⟩]
        leftHeadlines :=
          [⟨"L2", "CNN", "e", 900⟩, ⟨"L3", "MSNBC", "e", 800⟩,
           ⟨"L4", "CNN", "e", 700⟩, ⟨"L5", "MSNBC", "e", 600⟩]
        rightHeadlines :=
          [⟨"R2", "Fox News", "e", 850⟩, ⟨"R3", "Daily Wire", "e", 750⟩,
           ⟨"R4", "Fox News", "e", 650⟩, ⟨"R5", "Daily Wire", "e", 550⟩] }) ∧
    (∀ input : Headlines, ((fetchHeadlinesPure input).latest).Sorted hRel) ∧
    (∀ input : Headlines, (fetchHeadlinesPure input).latest.length =
      min 2 (input.leftHeadlines.length + input.rightHeadlines.length)) ∧
    (∀ (input : Headlines) (a b : Headline),
      a ∈ (fetchHeadlinesPure input).latest →
      (b ∈ (fetchHeadlinesPure input).leftHeadlines ∨
       b ∈ (fetchHeadlinesPure input).rightHeadlines) →
      b.publishedAt ≤ a.publishedAt) := by
  refine ⟨by decide, ?_, ?_, ?_⟩
  · intro input
    rw [latest_eq_take_two]
    exact (sorted_sortHeadlines _).sublist (List.take_sublist _ _)
  · intro input
    rw [latest_eq_take_two, List.length_take, sortHeadlines,
      (List.perm_insertionSort hRel _).length_eq, List.length_append]
  · intro input a b ha hb
    have hres := mem_side_of_result hb
    have hbSorted : b ∈ sortHeadlines (input.leftHeadlines ++ input.rightHeadlines) :=
      mem_sortHeadlines.mpr hres.1
    have hsplit :
        sortHeadlines (input.leftHeadlines ++ input.rightHeadlines) =
          (sortHeadlines (input.leftHeadlines ++ input.rightHeadlines)).take 2 ++
          (sortHeadlines (input.leftHeadlines ++ input.rightHeadlines)).drop 2 :=
      (List.take_append_drop _ _).symm
    rw [hsplit] at hbSorted
    rcases List.mem_append.mp hbSorted with h2 | h2
    · exfalso
      have hbl : b ∈ (fetchHeadlinesPure input).latest := by
        rw [latest_eq_take_two]; exact h2
      exact hres.2 (List.mem_map_of_mem _ hbl)
    · have hsorted := sorted_sortHeadlines (input.leftHeadlines ++ input.rightHeadlines)
      rw [hsplit] at hsorted
      have hpair := (List.pairwise_append.mp hsorted).2.2
      have ha2 : a ∈ (sortHeadlines (input.leftHeadlines ++ input.rightHeadlines)).take 2 := by
        rw [← latest_eq_take_two]; exact ha
      exact hpair a ha2 b h2

/-- Witness for C3 applying the dominance part at the scenario input. -/
theorem latest_is_two_most_recent_witness :
    (⟨"L1", "CNN", "e", 1000⟩ : Headline) ∈ (fetchHeadlinesPure scenarioInput).latest ∧
      (⟨"L2", "CNN", "e", 900⟩ : Headline) ∈ (fetchHeadlinesPure scenarioInput).leftHeadlines ∧
      (900 : Int) ≤ 1000 := by
  refine ⟨by decide, by decide, ?_⟩
  exact latest_is_two_most_recent.2.2.2 scenarioInput
    ⟨"L1", "CNN", "e", 1000⟩ ⟨"L2", "CNN", "e", 900⟩
    (by decide) (Or.inl (by decide))

/-- C4: in the search-and-classify strategy, with at least two articles
and a classification response naming `rightWingArticleSource`, sides are
assigned by exact source-string match among the first two articles: the
matching article becomes right-leaning, the other left-leaning; in
particular `[A/Fox News, B/CNN]` with `"Fox News"` assigns A right and
B left. -/
theorem classify_assigns_by_exact_source_match :
    (∀ (now : String) (a b : RawArticle) (rest : List RawArticle) (s : String),
      a.source = some s →
      classifyAssign now (a :: b :: rest) s =
        some ((normalizeArticle now a).1, (normalizeArticle now b).1)) ∧
    (∀ (now : String) (a b : RawArticle) (rest : List RawArticle) (s : String),
      a.source ≠ some s → b.source = some s →
      classifyAssign now (a :: b :: rest) s =
        some ((normalizeArticle now b).1, (normalizeArticle now a).1)) ∧
    (classifyAssign "T"
        [⟨some "A", none, some "Fox News", none, none⟩,
         ⟨some "B", none, some "CNN", none, none⟩] "Fox News" =
      some (⟨some "A", none, some "Fox News", "T", none⟩,
            ⟨some "B", none, some "CNN", "T", none⟩)) := by
  refine ⟨?_, ?_, by decide⟩
  · intro now a b rest s h
    simp [classifyAssign, assignSides, h]
  · intro now a b rest s ha _
    simp [classifyAssign, assignSides, ha]

/-- Witness for C4 at the concrete Fox News / CNN pair. -/
theorem classify_assigns_by_exact_source_match_witness :
    classifyAssign "T"
        [⟨some "A", none, some "Fox News", none, none⟩,
         ⟨some "B", none, some "CNN", none, none⟩] "Fox News" =
      some ((normalizeArticle "T" ⟨some "A", none, some "Fox News", none, none⟩).1,
            (normalizeArticle "T" ⟨some "B", none, some "CNN", none, none⟩).1) :=
  classify_assigns_by_exact_source_match.1 "T"
    ⟨some "A", none, some "Fox News", none, none⟩
    ⟨some "B", none, some "CNN", none, none⟩ [] "Fox News" rfl

/-- C5: `normalizeArticle` synthesizes `publishedAt` as the current
request time when the article carries neither `publishedAt` nor the
`publication_date` alias, and the fallback is observable (the warn flag
is set); an article that does carry a nonempty date keeps it unchanged
(and the flag stays clear). -/
theorem normalizeArticle_date_fallback :
    (∀ (now : String) (a : RawArticle),
      a.publishedAt = none → a.publication_date = none →
      (normalizeArticle now a).1.publishedAt = now ∧
        (normalizeArticle now a).2 = true) ∧
    (∀ (now : String) (a : RawArticle) (d : String),
      a.publishedAt = some d → d ≠ "" →
      (normalizeArticle now a).1.publishedAt = d ∧
        (normalizeArticle now a).2 = false) := by
  constructor
  · intro now a h1 h2
    simp [normalizeArticle, jsOrElse, h1, h2, strFalsy]
  · intro now a d h1 h2
    simp [normalizeArticle, jsOrElse, h1, h2, strFalsy]

/-- Witness for C5: a dateless article gets `now` and the flag, a dated
one keeps its date. -/
theorem normalizeArticle_date_fallback_witness :
    ((normalizeArticle "NOW" ⟨some "t", none, some "s", none, none⟩).1.publishedAt = "NOW" ∧
      (normalizeArticle "NOW" ⟨some "t", none, some "s", none, none⟩).2 = true) ∧
    ((normalizeArticle "NOW" ⟨some "t", none, some "s", some "2025-08-01", none⟩).1.publishedAt
        = "2025-08-01" ∧
      (normalizeArticle "NOW" ⟨some "t", none, some "s", some "2025-08-01", none⟩).2 = false) :=
  ⟨normalizeArticle_date_fallback.1 "NOW" ⟨some "t", none, some "s", none, none⟩ rfl rfl,
   normalizeArticle_date_fallback.2 "NOW" ⟨some "t", none, some "s", some "2025-08-01", none⟩
     "2025-08-01" rfl (by decide)⟩

/-- C6: if either side article is undetermined or lacks a truthy title,
the operation fails with the user-presentable articles-not-found error,
and no analysis result is produced: success is only possible when both
articles are present with truthy titles. -/
theorem missing_title_fails_articlesNotFound :
    (∀ r l : Option NormArticle,
      (r = none ∨ l = none ∨
        (∃ a, r = some a ∧ strFalsy a.title = true) ∨
        (∃ a, l = some a ∧ strFalsy a.title = true)) →
      checkArticles r l = Except.error articlesNotFoundMsg) ∧
    (∀ (r l : Option NormArticle) (p : NormArticle × NormArticle),
      checkArticles r l = Except.ok p →
      (∃ a, r = some a ∧ strFalsy a.title = false) ∧
        (∃ a, l = some a ∧ strFalsy a.title = false)) := by
  constructor
  · intro r l h
    rcases r with _ | ra
    · cases l <;> rfl
    rcases l with _ | la
    · rfl
    have hone : strFalsy ra.title = true ∨ strFalsy la.title = true := by
      rcases h with h | h | ⟨a, ha, hfa⟩ | ⟨a, ha, hfa⟩
      · exact absurd h (by simp)
      · exact absurd h (by simp)
      · cases Option.some.inj ha; exact Or.inl hfa
      · cases Option.some.inj ha; exact Or.inr hfa
    have hb : (strFalsy ra.title || strFalsy la.title) = true := by
      rcases hone with h | h <;> simp [h]
    simp only [checkArticles]
    rw [if_pos hb]
  · intro r l p h
    rcases r with _ | ra
    · cases l <;> exact absurd h (by simp [checkArticles])
    rcases l with _ | la
    · exact absurd h (by simp [checkArticles])
    simp only [checkArticles] at h
    by_cases hc : (strFalsy ra.title || strFalsy la.title) = true
    · rw [if_pos hc] at h
      exact absurd h (by simp)
    · have hc2 := hc
      simp only [Bool.or_eq_true, not_or, Bool.not_eq_true] at hc2
      exact ⟨⟨ra, rfl, hc2.1⟩, ⟨la, rfl, hc2.2⟩⟩

/-- Witness for C6: an untitled right article fails the guard, and a
successful check exhibits both truthy titles. -/
theorem missing_title_fails_articlesNotFound_witness :
    checkArticles (some ⟨none, none, some "s", "T", none⟩)
        (some ⟨some "ok", none, some "s2", "T", none⟩) =
      Except.error articlesNotFoundMsg :=
  missing_title_fails_articlesNotFound.1
    (some ⟨none, none, some "s", "T", none⟩)
    (some ⟨some "ok", none, some "s2", "T", none⟩)
    (Or.inr (Or.inr (Or.inl ⟨⟨none, none, some "s", "T", none⟩, rfl, rfl⟩)))

/-- C10: when the classification response matches neither candidate
source, no error is raised and the second article is assigned
right-leaning with the first left-leaning; and any articles beyond the
first two are ignored. -/
theorem classify_no_match_defaults_and_ignores_extra :
    (∀ (now : String) (a b : RawArticle) (rest : List RawArticle) (s : String),
      a.source ≠ some s → b.source ≠ some s →
      classifyAssign now (a :: b :: rest) s =
        some ((normalizeArticle now b).1, (normalizeArticle now a).1)) ∧
    (∀ (now : String) (a b : RawArticle) (rest rest2 : List RawArticle) (s : String),
      classifyAssign now (a :: b :: rest) s =
        classifyAssign now (a :: b :: rest2) s) := by
  constructor
  · intro now a b rest s ha _
    simp [classifyAssign, assignSides, ha]
  · intro now a b rest rest2 s
    rfl

/-- Witness for C10 at a pair matching neither source. -/
theorem classify_no_match_defaults_witness :
    classifyAssign "T"
        [⟨some "A", none, some "Fox News", none, none⟩,
         ⟨some "B", none, some "CNN", none, none⟩] "Newsmax" =
      some ((normalizeArticle "T" ⟨some "B", none, some "CNN", none, none⟩).1,
            (normalizeArticle "T" ⟨some "A", none, some "Fox News", none, none⟩).1) :=
  classify_no_match_defaults_and_ignores_extra.1 "T"
    ⟨some "A", none, some "Fox News", none, none⟩
    ⟨some "B", none, some "CNN", none, none⟩ [] "Newsmax"
    (by decide) (by decide)

theorem exists_not_ws_dropWhile {l : List Char}
    (h : l.dropWhile isTrimWs ≠ []) :
    ∃ x ∈ l.dropWhile isTrimWs, isTrimWs x = false := by
  induction l with
  | nil => simp at h
  | cons c t ih =>
    by_cases hc : isTrimWs c = true
    · rw [List.dropWhile_cons, if_pos hc] at h ⊢
      exact ih h
    · rw [List.dropWhile_cons, if_neg hc]
      exact ⟨c, List.mem_cons_self c t, by simpa using hc⟩

theorem subset_trimChars {l : List Char} : ∀ x ∈ trimChars l, x ∈ l := by
  intro x hx
  rw [trimChars] at hx
  have h1 := List.mem_reverse.mp hx
  have h2 := (List.dropWhile_sublist _).subset h1
  have h3 := List.mem_reverse.mp h2
  exact (List.dropWhile_sublist _).subset h3

theorem trimChars_all_false {l : List Char} (h : trimChars l ≠ []) :
    (trimChars l).all isTrimWs = false ∧ l.all isTrimWs = false := by
  have hD : (l.dropWhile isTrimWs).reverse.dropWhile isTrimWs ≠ [] := by
    intro hc
    apply h
    rw [trimChars, hc]
    rfl
  obtain ⟨x, hx, hxf⟩ := exists_not_ws_dropWhile hD
  have hxtrim : x ∈ trimChars l := by
    rw [trimChars]
    exact List.mem_reverse.mpr hx
  have hxl : x ∈ l := subset_trimChars x hxtrim
  constructor
  · simp only [List.all_eq_false]
    exact ⟨x, hxtrim, by simp [hxf]⟩
  · simp only [List.all_eq_false]
    exact ⟨x, hxl, by simp [hxf]⟩

theorem mem_split_foldr {cid : String} : ∀ (sens : List String) (u : NarrationUnit),
    u ∈ sens.foldr (fun sen acc =>
      if (trimStr sen).data.isEmpty then acc else ⟨cid, trimStr sen⟩ :: acc) [] →
    ∃ sen, u.text = trimStr sen ∧ (trimStr sen).data ≠ [] := by
  intro sens
  induction sens with
  | nil => intro u hu; simp at hu
  | cons s rest ih =>
    intro u hu
    simp only [List.foldr_cons] at hu
    by_cases hs : (trimStr s).data.isEmpty = true
    · rw [if_pos hs] at hu
      exact ih u hu
    · rw [if_neg hs] at hu
      rcases List.mem_cons.mp hu with rfl | hmem
      · exact ⟨s, rfl, by simpa using hs⟩
      · exact ih u hmem

theorem mem_addToQueue_nonblank (cid : String) (t : Option String) (b : Bool)
    (u : NarrationUnit) (hu : u ∈ addToQueue cid t b) :
    u.text.data.all isTrimWs = false := by
  match t with
  | none => simp [addToQueue] at hu
  | some s =>
    rw [addToQueue] at hu
    by_cases hg : (trimStr s).data.isEmpty = true
    · rw [if_pos hg] at hu
      simp at hu
    · rw [if_neg hg] at hu
      have hne : trimChars s.data ≠ [] := by
        intro hc
        apply hg
        simp [trimStr, hc]
      cases b with
      | false =>
        simp only [Bool.false_eq_true, if_false, List.mem_singleton] at hu
        rw [hu]
        exact (trimChars_all_false hne).2
      | true =>
        simp only [if_true] at hu
        obtain ⟨sen, hut, hne2⟩ := mem_split_foldr _ u hu
        have hne3 : trimChars sen.data ≠ [] := by
          intro hc
          apply hne2
          simp [trimStr, hc]
        rw [hut]
        exact (trimChars_all_false hne3).1

theorem mem_points_foldr {cid : String} : ∀ (pts : List String) (u : NarrationUnit),
    u ∈ pts.foldr (fun p acc => addToQueue cid (some p) true ++ acc) [] →
    ∃ p, u ∈ addToQueue cid (some p) true := by
  intro pts
  induction pts with
  | nil => intro u hu; simp at hu
  | cons p rest ih =>
    intro u hu
    simp only [List.foldr_cons] at hu
    rcases List.mem_append.mp hu with hmem | hmem
    · exact ⟨p, hmem⟩
    · exact ih u hmem

/-- C7: narration queue building is deterministic and produces no blank
units: (1) every unit of `buildQueue` has non-empty, non-whitespace-only
text; (2) a fixed `AnalysisResult` always yields the same ordered
sequence; (3) splitting retains the `.`/`!`/`?` delimiter, trims each
fragment and drops empties, as on the concrete three-sentence example. -/
theorem buildQueue_deterministic_no_blank :
    (∀ (r : AnalysisResult) (u : NarrationUnit), u ∈ buildQueue r →
      u.text.data.all isTrimWs = false) ∧
    (∀ r1 r2 : AnalysisResult, r1 = r2 → buildQueue r1 = buildQueue r2) ∧
    (addToQueue "c" (some " Hello world. How are you? Good!") true =
      [⟨"c", "Hello world."⟩, ⟨"c", "How are you?"⟩, ⟨"c", "Good!"⟩]) := by
  refine ⟨?_, fun r1 r2 h => by rw [h], by decide⟩
  intro r u hu
  rw [buildQueue] at hu
  simp only [List.mem_append, or_assoc] at hu
  rcases hu with h | h | h | h | h | h | h | h | h | h | h | h | h | h | h | h | h | h
  all_goals first
    | exact mem_addToQueue_nonblank _ _ _ _ h
    | (obtain ⟨p, hp⟩ := mem_points_foldr _ u h
       exact mem_addToQueue_nonblank _ _ _ _ hp)

/-- Witness for C7 at the sample analysis result. -/
theorem buildQueue_deterministic_no_blank_witness :
    (⟨"right-wing", "Right-Wing Perspective."⟩ : NarrationUnit) ∈ buildQueue sampleAnalysis ∧
      "Right-Wing Perspective.".data.all isTrimWs = false := by
  refine ⟨by decide, ?_⟩
  exact buildQueue_deterministic_no_blank.1 sampleAnalysis
    ⟨"right-wing", "Right-Wing Perspective."⟩ (by decide)

/-- C8: `stopSpeech` from any state yields the stopped state with an
empty queue, cursor 0 and no active section, and it is idempotent:
stopping twice equals stopping once. -/
theorem stopSpeech_stops_and_idempotent :
    ∀ s : SpeechState,
      (stopSpeech s).globalSpeechState = .stopped ∧
      (stopSpeech s).utterances = [] ∧
      (stopSpeech s).currentIndex = 0 ∧
      (stopSpeech s).currentlySpeakingCard = none ∧
      stopSpeech (stopSpeech s) = stopSpeech s :=
  fun _ => ⟨rfl, rfl, rfl, rfl, rfl⟩

theorem findPremium_some {ns : List String} {vcs : List Voice} {v : Voice}
    (h : findPremium ns vcs = some v) :
    v.name ∈ ns ∧ v.lang = "en-US" ∧ v ∈ vcs := by
  induction ns with
  | nil => simp [findPremium] at h
  | cons n ns ih =>
    rw [findPremium] at h
    cases hf : vcs.find? (fun v => v.name == n && v.lang == "en-US") with
    | some w =>
        rw [hf] at h
        have hv : w = v := Option.some.inj h
        subst hv
        have hp := List.find?_some hf
        simp only [Bool.and_eq_true, beq_iff_eq] at hp
        have hm := List.mem_of_find?_eq_some hf
        exact ⟨by simp [hp.1], hp.2, hm⟩
    | none =>
        rw [hf] at h
        obtain ⟨h1, h2, h3⟩ := ih h
        exact ⟨List.mem_cons_of_mem _ h1, h2, h3⟩

theorem findPremium_isSome {ns : List String} {vcs : List Voice}
    (h : ∃ v ∈ vcs, v.name ∈ ns ∧ v.lang = "en-US") :
    ∃ w, findPremium ns vcs = some w := by
  induction ns with
  | nil =>
      obtain ⟨v, _, hn, _⟩ := h
      simp at hn
  | cons n ns ih =>
    rw [findPremium]
    cases hf : vcs.find? (fun v => v.name == n && v.lang == "en-US") with
    | some w => exact ⟨w, rfl⟩
    | none =>
        obtain ⟨v, hv, hn, hl⟩ := h
        rcases List.mem_cons.mp hn with heq | hn2
        · exfalso
          have hnone := List.find?_eq_none.mp hf v hv
          simp [heq, hl] at hnone
        · exact ih ⟨v, hv, hn2, hl⟩

/-- C9: voice selection follows the documented fallback chain in order:
a user-selected voice is preferred when present in the list; otherwise
`getBestVoice` returns a named premium en-US voice when one exists,
else a local-service en-US voice, else any en-US voice, else any voice
whose locale prefix is "en", else none. -/
theorem voice_selection_fallback_chain :
    (∀ (voices : List Voice) (uri : String) (v : Voice),
      pickSelectedVoice voices uri = some v → v.voiceURI = uri ∧ v ∈ voices) ∧
    (∀ vcs : List Voice,
      ((∃ v ∈ vcs, isPremiumUS v) →
        ∃ v, getBestVoice vcs = some v ∧ isPremiumUS v) ∧
      ((¬ ∃ v ∈ vcs, isPremiumUS v) → (∃ v ∈ vcs, isLocalUS v) →
        ∃ v, getBestVoice vcs = some v ∧ isLocalUS v) ∧
      ((¬ ∃ v ∈ vcs, isPremiumUS v) → (¬ ∃ v ∈ vcs, isLocalUS v) →
        (∃ v ∈ vcs, isUS v) →
        ∃ v, getBestVoice vcs = some v ∧ isUS v) ∧
      ((¬ ∃ v ∈ vcs, isPremiumUS v) → (¬ ∃ v ∈ vcs, isLocalUS v) →
        (¬ ∃ v ∈ vcs, isUS v) → (∃ v ∈ vcs, isEnLocale v) →
        ∃ v, getBestVoice vcs = some v ∧ isEnLocale v) ∧
      ((¬ ∃ v ∈ vcs, isEnLocale v) → getBestVoice vcs = none)) := by
  constructor
  · intro voices uri v h
    have hp := List.find?_some h
    simp only [beq_iff_eq] at hp
    exact ⟨hp, List.mem_of_find?_eq_some h⟩
  intro vcs
  have husOfPrem : ∀ v : Voice, isPremiumUS v → isUS v := fun v hv => hv.2
  have husOfLocal : ∀ v : Voice, isLocalUS v → isUS v := fun v hv => hv.1
  have henOfUS : ∀ v : Voice, isUS v → isEnLocale v := by
    intro v hv
    rw [isEnLocale, hv]
    decide
  refine ⟨?_, ?_, ?_, ?_, ?_⟩
  · intro h
    obtain ⟨v, hv, hp⟩ := h
    have hne : vcs.isEmpty = false := by
      cases vcs with
      | nil => simp at hv
      | cons a l => rfl
    rw [getBestVoice, if_neg (by simp [hne])]
    obtain ⟨w, hw⟩ := findPremium_isSome ⟨v, hv, hp.1, hp.2⟩
    rw [hw]
    obtain ⟨h1, h2, _⟩ := findPremium_some hw
    exact ⟨w, rfl, h1, h2⟩
  · intro hnp hl
    obtain ⟨v, hv, hlv⟩ := hl
    have hne : vcs.isEmpty = false := by
      cases vcs with
      | nil => simp at hv
      | cons a l => rfl
    rw [getBestVoice, if_neg (by simp [hne])]
    have hfp : findPremium premiumNames vcs = none := by
      cases hf : findPremium premiumNames vcs with
      | none => rfl
      | some w =>
          obtain ⟨h1, h2, h3⟩ := findPremium_some hf
          exact absurd ⟨w, h3, h1, h2⟩ hnp
    rw [hfp]
    cases hf2 : vcs.find? (fun v => v.lang == "en-US" && v.localService) with
    | none =>
        exfalso
        have hnone := List.find?_eq_none.mp hf2 v hv
        simp [hlv.1, hlv.2] at hnone
    | some w =>
        have hp := List.find?_some hf2
        simp only [Bool.and_eq_true, beq_iff_eq] at hp
        exact ⟨w, rfl, hp.1, hp.2⟩
  · intro hnp hnl hus
    obtain ⟨v, hv, hvu⟩ := hus
    have hne : vcs.isEmpty = false := by
      cases vcs with
      | nil => simp at hv
      | cons a l => rfl
    rw [getBestVoice, if_neg (by simp [hne])]
    have hfp : findPremium premiumNames vcs = none := by
      cases hf : findPremium premiumNames vcs with
      | none => rfl
      | some w =>
          obtain ⟨h1, h2, h3⟩ := findPremium_some hf
          exact absurd ⟨w, h3, h1, h2⟩ hnp
    rw [hfp]
    have hf2 : vcs.find? (fun v => v.lang == "en-US" && v.localService) = none := by
      rw [List.find?_eq_none]
      intro x hx hcon
      simp only [Bool.and_eq_true, beq_iff_eq] at hcon
      exact hnl ⟨x, hx, hcon.1, hcon.2⟩
    rw [hf2]
    cases hf3 : vcs.find? (fun v => v.lang == "en-US") with
    | none =>
        exfalso
        have hnone := List.find?_eq_none.mp hf3 v hv
        simp at hnone
        exact hnone hvu
    | some w =>
        have hp := List.find?_some hf3
        simp only [beq_iff_eq] at hp
        exact ⟨w, rfl, hp⟩
  · intro hnp hnl hnu hen
    obtain ⟨v, hv, hvp⟩ := hen
    have hne : vcs.isEmpty = false := by
      cases vcs with
      | nil => simp at hv
      | cons a l => rfl
    rw [getBestVoice, if_neg (by simp [hne])]
    have hfp : findPremium premiumNames vcs = none := by
      cases hf : findPremium premiumNames vcs with
      | none => rfl
      | some w =>
          obtain ⟨h1, h2, h3⟩ := findPremium_some hf
          exact absurd ⟨w, h3, h1, h2⟩ hnp
    rw [hfp]
    have hf2 : vcs.find? (fun v => v.lang == "en-US" && v.localService) = none := by
      rw [List.find?_eq_none]
      intro x hx hcon
      simp only [Bool.and_eq_true, beq_iff_eq] at hcon
      exact hnl ⟨x, hx, hcon.1, hcon.2⟩
    rw [hf2]
    have hf3 : vcs.find? (fun v => v.lang == "en-US") = none := by
      rw [List.find?_eq_none]
      intro x hx hcon
      simp only [beq_iff_eq] at hcon
      exact hnu ⟨x, hx, hcon⟩
    rw [hf3]
    cases hf4 : vcs.find? (fun v => strStartsWith v.lang "en") with
    | none =>
        exfalso
        have hnone := List.find?_eq_none.mp hf4 v hv
        exact hnone hvp
    | some w =>
        have hp := List.find?_some hf4
        exact ⟨w, rfl, hp⟩
  · intro hen
    by_cases hne : vcs.isEmpty = true
    · rw [getBestVoice, if_pos hne]
    · rw [getBestVoice, if_neg hne]
      have hnp : ¬ ∃ v ∈ vcs, isPremiumUS v := by
        rintro ⟨v, hv, hp⟩
        exact hen ⟨v, hv, henOfUS v (husOfPrem v hp)⟩
      have hfp : findPremium premiumNames vcs = none := by
        cases hf : findPremium premiumNames vcs with
        | none => rfl
        | some w =>
            obtain ⟨h1, h2, h3⟩ := findPremium_some hf
            exact absurd ⟨w, h3, h1, h2⟩ hnp
      rw [hfp]
      have hf2 : vcs.find? (fun v => v.lang == "en-US" && v.localService) = none := by
        rw [List.find?_eq_none]
        intro x hx hcon
        simp only [Bool.and_eq_true, beq_iff_eq] at hcon
        exact hen ⟨x, hx, henOfUS x hcon.1⟩
      rw [hf2]
      have hf3 : vcs.find? (fun v => v.lang == "en-US") = none := by
        rw [List.find?_eq_none]
        intro x hx hcon
        simp only [beq_iff_eq] at hcon
        exact hen ⟨x, hx, henOfUS x hcon⟩
      rw [hf3]
      rw [List.find?_eq_none]
      intro x hx hcon
      exact hen ⟨x, hx, hcon⟩

/-- Witness for C9: a single-voice list where the premium tier fires,
and a user-selected lookup that returns the selected URI. -/
theorem voice_selection_fallback_chain_witness :
    (pickSelectedVoice [⟨"Samantha", "en-US", true, "u1"⟩] "u1" =
        some ⟨"Samantha", "en-US", true, "u1"⟩) ∧
    (⟨"Samantha", "en-US", true, "u1"⟩ : Voice).voiceURI = "u1" ∧
    (∃ v, getBestVoice [⟨"Samantha", "en-US", true, "u1"⟩] = some v ∧ isPremiumUS v) := by
  refine ⟨by decide, ?_, ?_⟩
  · exact (voice_selection_fallback_chain.1 [⟨"Samantha", "en-US", true, "u1"⟩] "u1"
      ⟨"Samantha", "en-US", true, "u1"⟩ (by decide)).1
  · exact (voice_selection_fallback_chain.2 [⟨"Samantha", "en-US", true, "u1"⟩]).1
      ⟨⟨"Samantha", "en-US", true, "u1"⟩, by decide, by decide, rfl⟩

end PoliticalSpectrum
